/-
Verification of the Superstore ETL pipeline (src/etl/main.py).

The pipeline reads a flat sales table, normalizes it, derives analytic
columns, builds a star schema (five dimension tables and one fact table)
and bulk-loads it into a relational store.  This file gives a shallow
embedding of the transform, dimension-building, fact-building and
bulk-load logic, and proves the spec's claims about it.

Conventions of the embedding:
- pandas DataFrames become Lean structures holding a list of typed rows;
  the adaptive location-column schema is a record of presence flags;
- pandas object (text) columns that may hold NaN are `Option String`
  before the transform's astype(str) step and plain `String` after it;
- numeric columns are `Rat` / `Int`;
- timestamps parsed by pd.to_datetime become `Option Date` with a
  year/month/day record (NaT is `none`);
- pandas drop_duplicates(keep='first') becomes `dedupBy`;
- the SQL store becomes a `Store` record of six row lists; the external
  schema script (drop and recreate all tables) becomes `initSchema`.
-/
import Mathlib

namespace Superstore

/-! ## Calendar dates

`pd.to_datetime` produces valid Gregorian calendar timestamps (at
midnight for date strings); we model them as year/month/day triples.
-/

structure Date where
  year : Nat
  month : Nat
  day : Nat
deriving DecidableEq

/-- Gregorian leap-year rule used by pandas timestamps. -/
def isLeap (y : Nat) : Bool :=
  (y % 4 == 0 && y % 100 != 0) || y % 400 == 0

def daysInMonth (y m : Nat) : Nat :=
  if m = 2 then (if isLeap y then 29 else 28)
  else if m = 4 ∨ m = 6 ∨ m = 9 ∨ m = 11 then 30
  else 31

/-- The integer `YYYYMMDD` encoding produced by `strftime('%Y%m%d')`
followed by `astype(int)`. -/
def Date.key (d : Date) : Nat :=
  d.year * 10000 + d.month * 100 + d.day

/-- A well-formed calendar date (what `pd.to_datetime` can return;
pandas timestamps all have year at least 1677). -/
def Date.Valid (d : Date) : Prop :=
  1 ≤ d.year ∧ 1 ≤ d.month ∧ d.month ≤ 12 ∧ 1 ≤ d.day ∧ d.day ≤ daysInMonth d.year d.month

instance (d : Date) : Decidable d.Valid :=
  inferInstanceAs (Decidable (_ ∧ _ ∧ _ ∧ _ ∧ _))

/-- The calendar successor of a date; this is the daily step taken by
`pd.date_range(start, end)`. -/
def nextDate (d : Date) : Date :=
  if d.day < daysInMonth d.year d.month then ⟨d.year, d.month, d.day + 1⟩
  else if d.month < 12 then ⟨d.year, d.month + 1, 1⟩
  else ⟨d.year + 1, 1, 1⟩

/-- Fuel-bounded daily iteration between two dates (inclusive). -/
def dateRangeAux : Nat → Date → Date → List Date
  | 0, _, _ => []
  | n + 1, start, stop =>
      if start.key ≤ stop.key then start :: dateRangeAux n (nextDate start) stop
      else []

/-- `pd.date_range(start, end)`: every calendar day from `start` to
`stop` inclusive (empty when `start` is after `stop`).  The fuel
`stop.key + 1 - start.key` is enough because `Date.key` grows by at
least one per day. -/
def dateRange (start stop : Date) : List Date :=
  dateRangeAux (stop.key + 1 - start.key) start stop

/-- Days since the Unix epoch (Howard Hinnant's days-from-civil
algorithm); used only for the `shipping_days` day difference of
pandas timestamp subtraction. -/
def civilToDays (d : Date) : Int :=
  let y : Int := if d.month ≤ 2 then (d.year : Int) - 1 else (d.year : Int)
  let era : Int := (if 0 ≤ y then y else y - 399) / 400
  let yoe : Int := y - era * 400
  let m : Int := (d.month : Int)
  let doy : Int := (153 * (if 2 < d.month then m - 3 else m + 9) + 2) / 5 + (d.day : Int) - 1
  let doe : Int := yoe * 365 + yoe / 4 - yoe / 100 + doy
  era * 146097 + doe - 719468

/-- pandas `dt.dayofweek`: Monday = 0 .. Sunday = 6. -/
def dayOfWeek (d : Date) : Nat :=
  ((civilToDays d + 3) % 7).toNat

/-- pandas `dt.day_name()`. -/
def weekdayName (d : Date) : String :=
  match dayOfWeek d with
  | 0 => "Monday"
  | 1 => "Tuesday"
  | 2 => "Wednesday"
  | 3 => "Thursday"
  | 4 => "Friday"
  | 5 => "Saturday"
  | _ => "Sunday"

/-- pandas `dt.month_name()`. -/
def monthNameOf (m : Nat) : String :=
  match m with
  | 1 => "January"
  | 2 => "February"
  | 3 => "March"
  | 4 => "April"
  | 5 => "May"
  | 6 => "June"
  | 7 => "July"
  | 8 => "August"
  | 9 => "September"
  | 10 => "October"
  | 11 => "November"
  | _ => "December"

/-- pandas `dt.quarter`. -/
def quarterOf (m : Nat) : Nat := (m - 1) / 3 + 1

/-! ## Python string views of possibly-missing object cells -/

/-- Python `str()` applied to an object-column cell: a missing value
(float NaN) renders as the literal string `"nan"`; this is what
pandas `astype(str)` applies elementwise. -/
def pyStr : Option String → String
  | none => "nan"
  | some s => s

/-- `.str.slice(0, 255)`: keep the first 255 characters. -/
def strTake255 (s : String) : String :=
  String.mk (s.data.take 255)

/-- `astype(str)` then `.str.slice(0, 255)`, the truncation applied to
every object-dtype column at the end of `transform_data`. -/
def trunc255 (c : Option String) : String :=
  strTake255 (pyStr c)

/-- A value as handed to the database driver by `insert_data`. -/
inductive Cell where
  | null : Cell
  | cstr : String → Cell
  | cint : Int → Cell
  | crat : Rat → Cell
  | cbool : Bool → Cell
deriving DecidableEq

/-- `df.where(pd.notnull(df), None)` elementwise: NaN/None becomes the
SQL NULL parameter (`none`), every other value is passed through. -/
def toSqlParam : Cell → Option Cell
  | Cell.null => none
  | c => some c

/-! ## Order-preserving deduplication

`DataFrame.drop_duplicates` (default `keep='first'`) retains the first
occurrence of each key and preserves row order. -/

def dedupByAux {α β : Type} [DecidableEq β] (key : α → β) : List β → List α → List α
  | _, [] => []
  | seen, x :: xs =>
      if key x ∈ seen then dedupByAux key seen xs
      else x :: dedupByAux key (key x :: seen) xs

/-- `drop_duplicates(keep='first')` deduplicating on `key`. -/
def dedupBy {α β : Type} [DecidableEq β] (key : α → β) (xs : List α) : List α :=
  dedupByAux key [] xs

/-- The position of the first occurrence of `a` in `xs` (used to state
that surrogate keys follow first-encountered input order). -/
def firstIdx {α : Type} [DecidableEq α] (xs : List α) (a : α) : Nat :=
  xs.findIdx fun b => decide (b = a)

/-! ## The input DataFrame

A row of the CSV after column-name normalization (`transform_data`
lines 62-68 lower-cases and underscores the names; we bake the
normalized names in as field names).  Text (object-dtype) columns may
hold NaN, hence `Option String`; numeric columns are exact rationals;
dates have already been parsed by `pd.to_datetime(errors='coerce')`
(which yields only valid calendar dates, or NaT = `none`). -/

structure RawRow where
  row_id : Int
  order_id : Option String
  order_date : Option Date
  ship_date : Option Date
  ship_mode : Option String
  customer_id : Option String
  customer_name : Option String
  segment : Option String
  product_id : Option String
  product_name : Option String
  category : Option String
  sub_category : Option String
  sales : Rat
  quantity : Int
  discount : Rat
  profit : Rat
  shipping_cost : Option Rat
  city : Option String
  state : Option String
  country : Option String
  region : Option String
  market : Option String
  postal_code : Option String
deriving DecidableEq

/-- Which of the six candidate location columns exist in the source
file (the schema is adaptive: `create_dimensions` line 195 checks
`c in df.columns`).  Column presence is a property of the whole frame,
not of single rows. -/
structure ColFlags where
  city : Bool
  state : Bool
  country : Bool
  region : Bool
  market : Bool
  postal_code : Bool
deriving DecidableEq

structure RawDF where
  flags : ColFlags
  rows : List RawRow
deriving DecidableEq

/-! ## transform_data (src/etl/main.py lines 57-106) -/

/-- `categorize_discount` (lines 88-91), verbatim: `mkRat 2 10` is the
decimal `0.2` the source compares against. -/
def categorize_discount (discount : Rat) : String :=
  if discount = 0 then "No Discount"
  else if discount < mkRat 2 10 then "Low"
  else "High"

/-- Insert into an ascending sorted list (used to model the sorted
order pandas quantile computes over). -/
def insertSorted (x : Rat) : List Rat → List Rat
  | [] => [x]
  | y :: ys => if x ≤ y then x :: y :: ys else y :: insertSorted x ys

/-- Ascending insertion sort. -/
def sortRats : List Rat → List Rat
  | [] => []
  | x :: xs => insertSorted x (sortRats xs)

/-- `Series.quantile(0.75)` with the default linear interpolation:
with ascending sorted values `ys` of length `n`, the quantile sits at
position `h = 0.75 * (n - 1)`; the result linearly interpolates
between `ys[floor h]` and `ys[floor h + 1]`. -/
def quantile75 (xs : List Rat) : Rat :=
  let ys := sortRats xs
  let n := ys.length
  if n = 0 then 0
  else
    let h : Rat := (3/4) * ((n : Rat) - 1)
    let i : Nat := h.floor.toNat
    let lo := ys.getD i 0
    let hi := ys.getD (i + 1) lo
    lo + (h - (h.floor : Rat)) * (hi - lo)

/-- `sales_threshold = df['sales'].quantile(0.75)` (line 95), computed
once per run over the whole batch. -/
def sales_threshold (df : RawDF) : Rat :=
  quantile75 (df.rows.map RawRow.sales)

/-- `(df['ship_date'] - df['order_date']).dt.days` with `.fillna(0)`
(lines 76-77): the day difference, or 0 when either date is NaT. -/
def shippingDays (r : RawRow) : Int :=
  match r.ship_date, r.order_date with
  | some s, some o => civilToDays s - civilToDays o
  | _, _ => 0

/-- `(profit / sales) * 100` with inf/NaN replaced by 0
(lines 80-82). -/
def profitMargin (profit sales : Rat) : Rat :=
  if sales = 0 then 0 else profit / sales * 100

/-- `df['order_date'].dt.strftime('%Y%m%d').fillna(0).astype(np.int64)`
(line 99): the YYYYMMDD integer, 0 for NaT. -/
def dateKeyOf : Option Date → Int
  | some d => (d.key : Int)
  | none => 0

/-- A row after `transform_data`: object columns have been through
`astype(str).str.slice(0, 255)` and are plain strings; the derived
feature columns are present. -/
structure TransRow where
  row_id : Int
  order_id : String
  order_date : Option Date
  ship_date : Option Date
  ship_mode : String
  customer_id : String
  customer_name : String
  segment : String
  product_id : String
  product_name : String
  category : String
  sub_category : String
  sales : Rat
  quantity : Int
  discount : Rat
  profit : Rat
  shipping_cost : Option Rat
  city : String
  state : String
  country : String
  region : String
  market : String
  postal_code : String
  shipping_days : Int
  profit_margin : Rat
  is_profitable : Int
  discount_category : String
  order_value_segment : String
  date_key : Int
deriving DecidableEq

structure TransDF where
  flags : ColFlags
  rows : List TransRow
deriving DecidableEq

/-- The per-row part of `transform_data`: id upper-casing (lines
65-68), feature engineering (lines 76-99) and the object-column
truncation (lines 101-104).  `thr` is the batch-wide
`sales_threshold` of line 95. -/
def transformRow (thr : Rat) (r : RawRow) : TransRow :=
  { row_id := r.row_id
    order_id := trunc255 r.order_id
    order_date := r.order_date
    ship_date := r.ship_date
    ship_mode := trunc255 r.ship_mode
    customer_id := strTake255 ((pyStr r.customer_id).toUpper)
    customer_name := trunc255 r.customer_name
    segment := trunc255 r.segment
    product_id := strTake255 ((pyStr r.product_id).toUpper)
    product_name := trunc255 r.product_name
    category := trunc255 r.category
    sub_category := trunc255 r.sub_category
    sales := r.sales
    quantity := r.quantity
    discount := r.discount
    profit := r.profit
    shipping_cost := r.shipping_cost
    city := trunc255 r.city
    state := trunc255 r.state
    country := trunc255 r.country
    region := trunc255 r.region
    market := trunc255 r.market
    postal_code := trunc255 r.postal_code
    shipping_days := shippingDays r
    profit_margin := profitMargin r.profit r.sales
    is_profitable := if 0 < r.profit then 1 else 0
    discount_category := strTake255 (categorize_discount r.discount)
    order_value_segment := strTake255 (if thr < r.sales then "High Value" else "Standard Value")
    date_key := dateKeyOf r.order_date }

/-- `transform_data` (lines 57-106): the threshold is computed once
from the whole batch, then every row is transformed with it. -/
def transform_data (df : RawDF) : TransDF :=
  { flags := df.flags
    rows := df.rows.map (transformRow (sales_threshold df)) }

/-! ## create_dimensions (lines 135-213) -/

/-- A row of `Dim_Date`.  All attribute columns of the sentinel row
are null, so each is an `Option`. -/
structure DateRow where
  dateKey : Int
  date : Option Date
  year : Option Nat
  quarter : Option Nat
  month : Option Nat
  monthName : Option String
  day : Option Nat
  weekday : Option String
  isWeekend : Option Bool
deriving DecidableEq

/-- The calendar attribute row built for one date (lines 147-156). -/
def mkDateRow (d : Date) : DateRow :=
  { dateKey := (d.key : Int)
    date := some d
    year := some d.year
    quarter := some (quarterOf d.month)
    month := some d.month
    monthName := some (monthNameOf d.month)
    day := some d.day
    weekday := some (weekdayName d)
    isWeekend := some (dayOfWeek d == 5 || dayOfWeek d == 6) }

/-- The sentinel "Unknown" date row (lines 159-162). -/
def unknownDateRow : DateRow :=
  { dateKey := 0
    date := none
    year := none
    quarter := none
    month := none
    monthName := some "Unknown"
    day := none
    weekday := none
    isWeekend := none }

/-- The non-NaT values of the `order_date` column. -/
def presentOrderDates (df : TransDF) : List Date :=
  df.rows.filterMap TransRow.order_date

/-- Left fold computing the chronologically smallest date. -/
def minByKey (x : Date) (xs : List Date) : Date :=
  xs.foldl (fun a b => if b.key < a.key then b else a) x

/-- Left fold computing the chronologically largest date. -/
def maxByKey (x : Date) (xs : List Date) : Date :=
  xs.foldl (fun a b => if a.key < b.key then b else a) x

/-- `df['order_date'].min()`: NaT values are skipped; the result is
NaT (`none`) when no date is present. -/
def minDateOpt (ds : List Date) : Option Date :=
  match ds with
  | [] => none
  | x :: xs => some (minByKey x xs)

/-- `df['order_date'].max()`. -/
def maxDateOpt (ds : List Date) : Option Date :=
  match ds with
  | [] => none
  | x :: xs => some (maxByKey x xs)

/-- The `Dim_Date` construction of `create_dimensions` (lines
143-166): generate the daily range from min to max order date, build
the calendar rows, prepend the sentinel, then assert DateKey
uniqueness.  `none` models the run aborting: either
`pd.date_range(NaT, NaT)` raising when no order date is present, or
the `assert dim_date['DateKey'].is_unique` failing — in both cases
before any `Dim_Date` row is loaded. -/
def dim_date_table (df : TransDF) : Option (List DateRow) :=
  match minDateOpt (presentOrderDates df), maxDateOpt (presentOrderDates df) with
  | some lo, some hi =>
      let dim := unknownDateRow :: (dateRange lo hi).map mkDateRow
      if (dim.map DateRow.dateKey).Nodup then some dim else none
  | _, _ => none

/-- A row of `Dim_Customer`. -/
structure CustRow where
  customerID : String
  customerName : String
  segment : String
deriving DecidableEq

/-- `Dim_Customer` (lines 172-175): project, drop duplicate rows, then
deduplicate again on the primary key alone. -/
def dimCustomer (df : TransDF) : List CustRow :=
  dedupBy (fun c => c.customerID)
    (dedupBy id (df.rows.map fun r => CustRow.mk r.customer_id r.customer_name r.segment))

/-- A row of `Dim_Product`. -/
structure ProdRow where
  productID : String
  productName : String
  category : String
  subCategory : String
deriving DecidableEq

/-- `Dim_Product` (lines 179-182). -/
def dimProduct (df : TransDF) : List ProdRow :=
  dedupBy (fun p => p.productID)
    (dedupBy id (df.rows.map fun r => ProdRow.mk r.product_id r.product_name r.category r.sub_category))

/-- A row of `Dim_ShipMode`. -/
structure ShipModeRow where
  shipModeID : Nat
  shipMode : String
deriving DecidableEq

/-- `Dim_ShipMode` (lines 186-189): distinct ship modes in
first-encountered order; `ShipModeID = index + 1` after
`reset_index(drop=True)`. -/
def dimShipMode (df : TransDF) : List ShipModeRow :=
  (dedupBy id (df.rows.map TransRow.ship_mode)).enum.map fun p => ShipModeRow.mk (p.1 + 1) p.2

/-- The composite natural key of a row for `Dim_Location`: the values
of whichever location columns are present, in the fixed order of
`loc_cols` (line 194). -/
def locKey (f : ColFlags) (r : TransRow) : List String :=
  (if f.city then [r.city] else []) ++
  (if f.state then [r.state] else []) ++
  (if f.country then [r.country] else []) ++
  (if f.region then [r.region] else []) ++
  (if f.market then [r.market] else []) ++
  (if f.postal_code then [r.postal_code] else [])

/-- A row of `Dim_Location`: the surrogate key plus the composite
natural-key tuple (the individual renamed columns of lines 200-209
carry exactly this tuple). -/
structure LocRow where
  locationID : Nat
  key : List String
deriving DecidableEq

/-- `Dim_Location` (lines 197-198): distinct composite tuples in
first-encountered order, `LocationID = index + 1`. -/
def dimLocation (df : TransDF) : List LocRow :=
  (dedupBy id (df.rows.map (locKey df.flags))).enum.map fun p => LocRow.mk (p.1 + 1) p.2

/-! ## load_face_sales (lines 215-254) -/

/-- A row of `Fact_Sales`, in the fixed `fact_cols` order of lines
245-249.  The two surrogate foreign keys are `Option` because the left
merges leave them NaN when no dimension row matches. -/
structure FactRow where
  rowID : Int
  orderID : String
  dateKey : Int
  customerID : String
  productID : String
  locationID : Option Nat
  shipModeID : Option Nat
  sales : Rat
  quantity : Int
  discount : Rat
  profit : Rat
  shippingCost : Option Rat
  shipping_days : Int
  profit_margin : Rat
  is_profitable : Int
  discount_category : String
  order_value_segment : String
deriving DecidableEq

/-- The left merge with `Dim_ShipMode` on `ship_mode = ShipMode`
(line 222).  The right side is unique on its natural key, so each fact
row matches at most one dimension row; no match leaves NaN. -/
def resolveShipMode (dim : List ShipModeRow) (m : String) : Option Nat :=
  (dim.find? fun d => d.shipMode == m).map ShipModeRow.shipModeID

/-- The left merge with `Dim_Location` on the composite location key
(lines 224-234). -/
def resolveLocation (dim : List LocRow) (k : List String) : Option Nat :=
  (dim.find? fun d => d.key == k).map LocRow.locationID

/-- One merged-and-renamed fact row (lines 222-240 plus the
`fact_cols` projection). -/
def mkFactRow (f : ColFlags) (dimSM : List ShipModeRow) (dimL : List LocRow) (r : TransRow) : FactRow :=
  { rowID := r.row_id
    orderID := r.order_id
    dateKey := r.date_key
    customerID := r.customer_id
    productID := r.product_id
    locationID := resolveLocation dimL (locKey f r)
    shipModeID := resolveShipMode dimSM r.ship_mode
    sales := r.sales
    quantity := r.quantity
    discount := r.discount
    profit := r.profit
    shippingCost := r.shipping_cost
    shipping_days := r.shipping_days
    profit_margin := r.profit_margin
    is_profitable := r.is_profitable
    discount_category := r.discount_category
    order_value_segment := r.order_value_segment }

/-- `load_face_sales` (lines 215-254): merge the two surrogate keys
in, rename, deduplicate on `RowID` keeping the first occurrence
(line 243), project the final columns.  Returns the `final_fact` table
handed to `insert_data`. -/
def load_face_sales (df : TransDF) (dimSM : List ShipModeRow) (dimL : List LocRow) : List FactRow :=
  dedupBy FactRow.rowID (df.rows.map (mkFactRow df.flags dimSM dimL))

/-! ## insert_data (lines 108-133)

`insert_data` slices the rows into consecutive chunks of
`chunksize` (callers always pass 1000), runs `executemany` per chunk
and `conn.commit()` immediately after each chunk.  A chunk's failure
raises, aborting the loop (later chunks are never attempted) and
leaving all previously committed chunks committed.  We model the
store's per-chunk acceptance with a predicate `ok` and return the
committed rows together with the success flag. -/

/-- `data[i:i+chunksize]` slices for `i in range(0, total, chunksize)`
with chunk size `m + 1`; the fuel (instantiated with the list length)
only bounds the recursion. -/
def chunksOfAux {α : Type} (m : Nat) : Nat → List α → List (List α)
  | 0, _ => []
  | _, [] => []
  | fuel + 1, x :: xs => (x :: xs).take (m + 1) :: chunksOfAux m fuel ((x :: xs).drop (m + 1))

/-- The consecutive chunks of size `n` (the last may be shorter);
`n` is always 1000 in the source. -/
def chunksOf {α : Type} (n : Nat) (xs : List α) : List (List α) :=
  chunksOfAux (n - 1) xs.length xs

/-- Run the insert loop over the chunks: commit each successful chunk,
abort on the first failure. -/
def runBatches {α : Type} (ok : List α → Bool) : List (List α) → List (List α) × Bool
  | [] => ([], true)
  | c :: cs =>
      if ok c then
        let rest := runBatches ok cs
        (c :: rest.1, rest.2)
      else ([], false)

/-- `insert_data`: the pair of (rows committed to the table, whether
the whole load succeeded). -/
def insert_data {α : Type} (ok : List α → Bool) (rows : List α) (chunksize : Nat) : List α × Bool :=
  let res := runBatches ok (chunksOf chunksize rows)
  (res.1.flatten, res.2)

/-! ## main (lines 283-340): the full pipeline against the store -/

/-- The six output tables of the star schema. -/
structure Store where
  dim_date : List DateRow
  dim_customer : List CustRow
  dim_product : List ProdRow
  dim_shipmode : List ShipModeRow
  dim_location : List LocRow
  fact_sales : List FactRow
deriving DecidableEq

def emptyStore : Store := ⟨[], [], [], [], [], []⟩

/-- The external schema script (sql/schema.sql, executed in lines
293-326): it drops and recreates all six tables, so whatever the store
held before, it is empty afterwards. -/
def initSchema (_s : Store) : Store := emptyStore

/-- `main` (lines 283-340) after extraction: initialize the schema,
transform, build and load the five dimensions, build and load the
fact table.  `none` models the process exiting with an error (the
date-dimension construction aborting). -/
def runPipeline (store : Store) (df : RawDF) : Option Store :=
  let s0 := initSchema store
  let t := transform_data df
  match dim_date_table t with
  | none => none
  | some dd =>
      let dimSM := dimShipMode t
      let dimL := dimLocation t
      some { s0 with
              dim_date := dd
              dim_customer := dimCustomer t
              dim_product := dimProduct t
              dim_shipmode := dimSM
              dim_location := dimL
              fact_sales := load_face_sales t dimSM dimL }

/-- The object-dtype (text) cells of a transformed row, as they are
handed to `insert_data` for the fact table: after `transform_data`
every one of these columns went through `astype(str)`, so each cell is
a string value. -/
def objCells (r : TransRow) : List Cell :=
  [Cell.cstr r.order_id, Cell.cstr r.ship_mode, Cell.cstr r.customer_id,
   Cell.cstr r.customer_name, Cell.cstr r.segment, Cell.cstr r.product_id,
   Cell.cstr r.product_name, Cell.cstr r.category, Cell.cstr r.sub_category,
   Cell.cstr r.city, Cell.cstr r.state, Cell.cstr r.country, Cell.cstr r.region,
   Cell.cstr r.market, Cell.cstr r.postal_code, Cell.cstr r.discount_category,
   Cell.cstr r.order_value_segment]

/-! ## Concrete sample inputs (used by the witness theorems) -/

/-- A minimal raw input row. -/
def sampleRawRow : RawRow :=
  { row_id := 1
    order_id := some "ORD-1"
    order_date := some ⟨2024, 1, 1⟩
    ship_date := none
    ship_mode := none
    customer_id := some "cu-1"
    customer_name := none
    segment := some "Consumer"
    product_id := some "pr-1"
    product_name := some "Pencil"
    category := some "Office"
    sub_category := none
    sales := 10
    quantity := 2
    discount := mkRat 1 10
    profit := 5
    shipping_cost := none
    city := some "Austin"
    state := some "Texas"
    country := none
    region := none
    market := none
    postal_code := none }

/-- A two-row raw frame whose second row repeats the first row's
`row_id` and differs elsewhere. -/
def sampleRawDF : RawDF :=
  { flags := ⟨true, true, false, false, false, false⟩
    rows := [sampleRawRow,
             { sampleRawRow with
                row_id := 1
                order_date := some ⟨2024, 1, 3⟩
                ship_mode := some "Second Class"
                sales := 100 }] }

/-- The transformed sample frame. -/
def sampleTransDF : TransDF := transform_data sampleRawDF

/-- A transformed frame built directly, with two distinct row ids and
two ship modes. -/
def sampleTransRow : TransRow :=
  { row_id := 1
    order_id := "O1"
    order_date := some ⟨2024, 1, 1⟩
    ship_date := none
    ship_mode := "First Class"
    customer_id := "C1"
    customer_name := "A"
    segment := "S"
    product_id := "P1"
    product_name := "N"
    category := "K"
    sub_category := "SK"
    sales := 10
    quantity := 1
    discount := 0
    profit := 1
    shipping_cost := none
    city := "Austin"
    state := "Texas"
    country := "US"
    region := "C"
    market := "M"
    postal_code := "73301"
    shipping_days := 0
    profit_margin := 10
    is_profitable := 1
    discount_category := "No Discount"
    order_value_segment := "Standard Value"
    date_key := 20240101 }

def sampleTrans2 : TransDF :=
  { flags := ⟨true, true, false, false, false, false⟩
    rows := [sampleTransRow,
             { sampleTransRow with row_id := 2, ship_mode := "Second Class", order_date := some ⟨2024, 1, 2⟩ },
             { sampleTransRow with row_id := 1, ship_mode := "Second Class" }] }

/-- The date dimension the sample raw frame produces (order dates
2024-01-01 and 2024-01-03). -/
def sampleDimDate : List DateRow :=
  [unknownDateRow, mkDateRow ⟨2024, 1, 1⟩, mkDateRow ⟨2024, 1, 2⟩, mkDateRow ⟨2024, 1, 3⟩]

/-! ## Lemmas about order-preserving deduplication -/

theorem dedupByAux_subset {α β : Type} [DecidableEq β] (key : α → β) :
    ∀ (seen : List β) (xs : List α) (a : α), a ∈ dedupByAux key seen xs → a ∈ xs := by
  intro seen xs
  induction xs generalizing seen with
  | nil => intro a h; simp [dedupByAux] at h
  | cons x xs ih =>
    intro a h
    rw [dedupByAux] at h
    split at h
    · exact List.mem_cons_of_mem _ (ih _ _ h)
    · rcases List.mem_cons.mp h with rfl | h
      · exact List.mem_cons_self _ _
      · exact List.mem_cons_of_mem _ (ih _ _ h)

theorem mem_map_key_dedupByAux {α β : Type} [DecidableEq β] (key : α → β) :
    ∀ (seen : List β) (xs : List α) (b : β),
      b ∈ (dedupByAux key seen xs).map key ↔ (b ∈ xs.map key ∧ b ∉ seen) := by
  intro seen xs
  induction xs generalizing seen with
  | nil => intro b; simp [dedupByAux]
  | cons x xs ih =>
    intro b
    rw [dedupByAux]
    split
    · rename_i hx
      rw [ih]
      simp only [List.map_cons, List.mem_cons]
      constructor
      · rintro ⟨h1, h2⟩; exact ⟨Or.inr h1, h2⟩
      · rintro ⟨h1 | h1, h2⟩
        · exact absurd (h1 ▸ hx) h2
        · exact ⟨h1, h2⟩
    · rename_i hx
      simp only [List.map_cons, List.mem_cons, ih (key x :: seen) b]
      by_cases hbx : b = key x
      · subst hbx
        simp [hx]
      · simp only [hbx, false_or]

theorem nodup_map_key_dedupByAux {α β : Type} [DecidableEq β] (key : α → β) :
    ∀ (seen : List β) (xs : List α), ((dedupByAux key seen xs).map key).Nodup := by
  intro seen xs
  induction xs generalizing seen with
  | nil => simp [dedupByAux]
  | cons x xs ih =>
    rw [dedupByAux]
    split
    · exact ih _
    · simp only [List.map_cons, List.nodup_cons]
      refine ⟨fun hmem => ?_, ih _⟩
      exact ((mem_map_key_dedupByAux key _ _ _).mp hmem).2 (List.mem_cons_self _ _)

theorem dedupByAux_key_not_seen {α β : Type} [DecidableEq β] (key : α → β)
    (seen : List β) (xs : List α) (a : α) (h : a ∈ dedupByAux key seen xs) :
    key a ∉ seen :=
  ((mem_map_key_dedupByAux key seen xs (key a)).mp (List.mem_map_of_mem key h)).2

theorem find?_dedupByAux {α β : Type} [DecidableEq β] (key : α → β) :
    ∀ (seen : List β) (xs : List α) (k : β), k ∉ seen →
      (dedupByAux key seen xs).find? (fun a => key a == k) = xs.find? (fun a => key a == k) := by
  intro seen xs
  induction xs generalizing seen with
  | nil => intro k _; simp [dedupByAux]
  | cons x xs ih =>
    intro k hk
    rw [dedupByAux]
    split
    · rename_i hx
      have hne : ¬ (key x == k) = true := by
        simp only [beq_iff_eq]
        rintro rfl; exact hk hx
      rw [@List.find?_cons_of_neg _ (fun a => key a == k) x xs hne, ih seen k hk]
    · rename_i hx
      by_cases hxk : (key x == k) = true
      · rw [@List.find?_cons_of_pos _ (fun a => key a == k) x (dedupByAux key (key x :: seen) xs) hxk,
            @List.find?_cons_of_pos _ (fun a => key a == k) x xs hxk]
      · rw [@List.find?_cons_of_neg _ (fun a => key a == k) x (dedupByAux key (key x :: seen) xs) hxk,
            @List.find?_cons_of_neg _ (fun a => key a == k) x xs hxk]
        refine ih _ k ?_
        simp only [List.mem_cons, beq_iff_eq] at hxk ⊢
        rintro (rfl | hs)
        · exact hxk rfl
        · exact hk hs

theorem mem_dedupBy_id {α : Type} [DecidableEq α] (xs : List α) (a : α) :
    a ∈ dedupBy id xs ↔ a ∈ xs := by
  have := mem_map_key_dedupByAux (id : α → α) [] xs a
  simpa [dedupBy] using this

theorem nodup_map_key_dedupBy {α β : Type} [DecidableEq β] (key : α → β) (xs : List α) :
    ((dedupBy key xs).map key).Nodup :=
  nodup_map_key_dedupByAux key [] xs

theorem nodup_dedupBy_id {α : Type} [DecidableEq α] (xs : List α) :
    (dedupBy id xs).Nodup := by
  have := nodup_map_key_dedupBy (id : α → α) xs
  simpa using this

theorem find?_dedupBy {α β : Type} [DecidableEq β] (key : α → β) (xs : List α) (k : β) :
    (dedupBy key xs).find? (fun a => key a == k) = xs.find? (fun a => key a == k) :=
  find?_dedupByAux key [] xs k (List.not_mem_nil k)

theorem dedupBy_subset {α β : Type} [DecidableEq β] (key : α → β) (xs : List α) (a : α)
    (h : a ∈ dedupBy key xs) : a ∈ xs :=
  dedupByAux_subset key [] xs a h

theorem firstIdx_cons_self {α : Type} [DecidableEq α] (a : α) (l : List α) :
    firstIdx (a :: l) a = 0 := by
  simp [firstIdx, List.findIdx_cons]

theorem firstIdx_cons_ne {α : Type} [DecidableEq α] {a b : α} (l : List α) (h : b ≠ a) :
    firstIdx (b :: l) a = firstIdx l a + 1 := by
  simp [firstIdx, List.findIdx_cons, h]

theorem pairwise_idxOf_dedupByAux {α : Type} [DecidableEq α] :
    ∀ (xs seen : List α),
      (dedupByAux id seen xs).Pairwise (fun a b => firstIdx xs a < firstIdx xs b) := by
  intro xs
  induction xs with
  | nil => intro seen; simp [dedupByAux]
  | cons x xs ih =>
    intro seen
    rw [dedupByAux]
    split
    · rename_i hx
      have hx' : x ∈ seen := by simpa using hx
      refine (ih seen).imp_of_mem ?_
      intro a b ha hb hab
      have hxa : a ∉ seen := by simpa using dedupByAux_key_not_seen id seen xs a ha
      have hxb : b ∉ seen := by simpa using dedupByAux_key_not_seen id seen xs b hb
      have hna : a ≠ x := fun h => hxa (by rw [h]; exact hx')
      have hnb : b ≠ x := fun h => hxb (by rw [h]; exact hx')
      rw [firstIdx_cons_ne _ (Ne.symm hna), firstIdx_cons_ne _ (Ne.symm hnb)]
      omega
    · refine List.Pairwise.cons ?_ ?_
      · intro b hb
        have hnb : b ≠ x := fun h => by
          have := dedupByAux_key_not_seen id (id x :: seen) xs b hb
          simp [h] at this
        rw [firstIdx_cons_self, firstIdx_cons_ne _ (Ne.symm hnb)]
        omega
      · refine (ih (id x :: seen)).imp_of_mem ?_
        intro a b ha hb hab
        have hna : a ≠ x := fun h => by
          have := dedupByAux_key_not_seen id (id x :: seen) xs a ha
          simp [h] at this
        have hnb : b ≠ x := fun h => by
          have := dedupByAux_key_not_seen id (id x :: seen) xs b hb
          simp [h] at this
        rw [firstIdx_cons_ne _ (Ne.symm hna), firstIdx_cons_ne _ (Ne.symm hnb)]
        omega

theorem pairwise_idxOf_dedupBy {α : Type} [DecidableEq α] (xs : List α) :
    (dedupBy id xs).Pairwise (fun a b => firstIdx xs a < firstIdx xs b) :=
  pairwise_idxOf_dedupByAux xs []

theorem dedupBy_id_length {α : Type} [DecidableEq α] (xs : List α) :
    (dedupBy id xs).length = xs.toFinset.card := by
  have hnd := nodup_dedupBy_id xs
  have hset : (dedupBy id xs).toFinset = xs.toFinset := by
    apply Finset.ext
    intro a
    simp only [List.mem_toFinset]
    exact mem_dedupBy_id xs a
  calc (dedupBy id xs).length = (dedupBy id xs).toFinset.card :=
        (List.toFinset_card_of_nodup hnd).symm
    _ = xs.toFinset.card := by rw [hset]

/-! ## Lemmas about enumeration-based surrogate keys -/

theorem enumFrom_map_fst_add_one {α : Type} (D : List α) :
    ∀ k : Nat, (List.enumFrom k D).map (fun p => p.1 + 1) = List.range' (k + 1) D.length := by
  induction D with
  | nil => intro k; rfl
  | cons x D ih =>
    intro k
    have hr : List.range' (k + 1) (D.length + 1) = (k + 1) :: List.range' (k + 2) D.length := rfl
    simp only [List.enumFrom, List.map_cons, List.length_cons, hr]
    rw [ih (k + 1)]

theorem enumFrom_map_snd {α : Type} (D : List α) :
    ∀ k : Nat, (List.enumFrom k D).map (fun p => p.2) = D := by
  induction D with
  | nil => intro k; rfl
  | cons x D ih =>
    intro k
    simp only [List.enumFrom, List.map_cons]
    rw [ih (k + 1)]

/-! ## Lemmas about chunked insertion -/

theorem chunksOfAux_flatten {α : Type} (m : Nat) :
    ∀ (fuel : Nat) (xs : List α), xs.length ≤ fuel → (chunksOfAux m fuel xs).flatten = xs := by
  intro fuel
  induction fuel with
  | zero =>
    intro xs h
    have : xs = [] := List.eq_nil_of_length_eq_zero (by omega)
    subst this
    simp [chunksOfAux]
  | succ n ih =>
    intro xs h
    cases xs with
    | nil => simp [chunksOfAux]
    | cons x t =>
      rw [chunksOfAux]
      simp only [List.flatten_cons]
      rw [ih ((x :: t).drop (m + 1))
            (by simp only [List.length_drop, List.length_cons]
                simp only [List.length_cons] at h
                omega)]
      exact List.take_append_drop _ _

theorem chunksOfAux_length_le {α : Type} (m : Nat) :
    ∀ (fuel : Nat) (xs : List α) (c : List α), c ∈ chunksOfAux m fuel xs → c.length ≤ m + 1 := by
  intro fuel
  induction fuel with
  | zero => intro xs c h; simp [chunksOfAux] at h
  | succ n ih =>
    intro xs c h
    cases xs with
    | nil => simp [chunksOfAux] at h
    | cons x t =>
      rw [chunksOfAux] at h
      rcases List.mem_cons.mp h with rfl | h
      · rw [List.length_take]; omega
      · exact ih _ c h

theorem runBatches_all_ok {α : Type} (ok : List α → Bool) :
    ∀ cs : List (List α), (∀ c ∈ cs, ok c = true) → runBatches ok cs = (cs, true) := by
  intro cs
  induction cs with
  | nil => intro _; rfl
  | cons c cs ih =>
    intro h
    rw [runBatches]
    rw [if_pos (h c (List.mem_cons_self _ _)), ih (fun c hc => h c (List.mem_cons_of_mem _ hc))]

theorem runBatches_fail {α : Type} (ok : List α → Bool) :
    ∀ (pre : List (List α)) (bad : List α) (post : List (List α)),
      (∀ c ∈ pre, ok c = true) → ok bad = false →
      runBatches ok (pre ++ bad :: post) = (pre, false) := by
  intro pre
  induction pre with
  | nil =>
    intro bad post _ hbad
    simp only [List.nil_append]
    rw [runBatches, if_neg (by simp [hbad])]
  | cons c pre ih =>
    intro bad post h hbad
    simp only [List.cons_append]
    rw [runBatches, if_pos (h c (List.mem_cons_self _ _)),
        ih bad post (fun c hc => h c (List.mem_cons_of_mem _ hc)) hbad]

/-! ## Lemmas about calendar dates and the date range -/

theorem daysInMonth_ge (y m : Nat) : 28 ≤ daysInMonth y m := by
  unfold daysInMonth
  split
  · split <;> omega
  · split <;> omega

theorem daysInMonth_le (y m : Nat) : daysInMonth y m ≤ 31 := by
  unfold daysInMonth
  split
  · split <;> omega
  · split <;> omega

theorem nextDate_valid {d : Date} (h : d.Valid) : (nextDate d).Valid := by
  obtain ⟨h1, h2, h3, h4, h5⟩ := h
  by_cases h6 : d.day < daysInMonth d.year d.month
  · simp only [nextDate, if_pos h6]
    show 1 ≤ d.year ∧ 1 ≤ d.month ∧ d.month ≤ 12 ∧ 1 ≤ d.day + 1 ∧
      d.day + 1 ≤ daysInMonth d.year d.month
    omega
  · by_cases h7 : d.month < 12
    · simp only [nextDate, if_neg h6, if_pos h7]
      show 1 ≤ d.year ∧ 1 ≤ d.month + 1 ∧ d.month + 1 ≤ 12 ∧ 1 ≤ 1 ∧
        1 ≤ daysInMonth d.year (d.month + 1)
      have := daysInMonth_ge d.year (d.month + 1)
      omega
    · simp only [nextDate, if_neg h6, if_neg h7]
      show 1 ≤ d.year + 1 ∧ 1 ≤ 1 ∧ 1 ≤ 12 ∧ 1 ≤ 1 ∧ 1 ≤ daysInMonth (d.year + 1) 1
      have := daysInMonth_ge (d.year + 1) 1
      omega

theorem key_lt_nextDate {d : Date} (h : d.Valid) : d.key < (nextDate d).key := by
  obtain ⟨h1, h2, h3, h4, h5⟩ := h
  have hle := daysInMonth_le d.year d.month
  by_cases h6 : d.day < daysInMonth d.year d.month
  · simp only [nextDate, if_pos h6, Date.key]
    omega
  · by_cases h7 : d.month < 12
    · simp only [nextDate, if_neg h6, if_pos h7, Date.key]
      omega
    · simp only [nextDate, if_neg h6, if_neg h7, Date.key]
      omega

theorem nextDate_key_min {d c : Date} (hd : d.Valid) (hc : c.Valid) (h : d.key < c.key) :
    (nextDate d).key ≤ c.key := by
  obtain ⟨hd1, hd2, hd3, hd4, hd5⟩ := hd
  obtain ⟨hc1, hc2, hc3, hc4, hc5⟩ := hc
  have hdle := daysInMonth_le d.year d.month
  have hcle := daysInMonth_le c.year c.month
  simp only [Date.key] at h ⊢
  by_cases h6 : d.day < daysInMonth d.year d.month
  · simp only [nextDate, if_pos h6]
    omega
  · by_cases h7 : d.month < 12
    · simp only [nextDate, if_neg h6, if_pos h7]
      rcases Nat.lt_trichotomy c.year d.year with hy | hy | hy
      · omega
      · rcases Nat.lt_trichotomy c.month d.month with hm | hm | hm
        · omega
        · have hdim : daysInMonth c.year c.month = daysInMonth d.year d.month := by
            rw [hy, hm]
          omega
        · omega
      · omega
    · simp only [nextDate, if_neg h6, if_neg h7]
      have h31 : daysInMonth d.year d.month = 31 := by
        have hm12 : d.month = 12 := by omega
        rw [hm12]
        unfold daysInMonth
        norm_num
      rcases Nat.lt_trichotomy c.year d.year with hy | hy | hy
      · omega
      · omega
      · omega

theorem key_inj : ∀ {d c : Date}, d.Valid → c.Valid → d.key = c.key → d = c := by
  rintro ⟨dy, dm, dd⟩ ⟨cy, cm, cd⟩ ⟨hd1, hd2, hd3, hd4, hd5⟩ ⟨hc1, hc2, hc3, hc4, hc5⟩ h
  have hdle := daysInMonth_le dy dm
  have hcle := daysInMonth_le cy cm
  simp only [Date.key] at h
  simp only [Date.mk.injEq]
  simp only at hd1 hd2 hd3 hd4 hd5 hc1 hc2 hc3 hc4 hc5 hdle hcle
  omega

theorem mem_dateRangeAux_bounds :
    ∀ (n : Nat) (start stop x : Date), start.Valid → x ∈ dateRangeAux n start stop →
      start.key ≤ x.key ∧ x.key ≤ stop.key ∧ x.Valid := by
  intro n
  induction n with
  | zero => intro start stop x _ hx; simp [dateRangeAux] at hx
  | succ n ih =>
    intro start stop x hs hx
    rw [dateRangeAux] at hx
    split at hx
    · rename_i hcond
      rcases List.mem_cons.mp hx with rfl | hx
      · exact ⟨Nat.le_refl _, hcond, hs⟩
      · have hnext := nextDate_valid hs
        have hlt := key_lt_nextDate hs
        have h3 := ih (nextDate start) stop x hnext hx
        exact ⟨by omega, h3.2.1, h3.2.2⟩
    · simp at hx

theorem pairwise_key_dateRangeAux :
    ∀ (n : Nat) (start stop : Date), start.Valid →
      (dateRangeAux n start stop).Pairwise (fun a b => a.key < b.key) := by
  intro n
  induction n with
  | zero => intro start stop _; simp [dateRangeAux]
  | succ n ih =>
    intro start stop hs
    rw [dateRangeAux]
    split
    · refine List.Pairwise.cons ?_ (ih (nextDate start) stop (nextDate_valid hs))
      intro b hb
      have hb2 := mem_dateRangeAux_bounds n (nextDate start) stop b (nextDate_valid hs) hb
      have hlt := key_lt_nextDate hs
      omega
    · exact List.Pairwise.nil

theorem mem_dateRangeAux_of_between :
    ∀ (n : Nat) (start stop c : Date), start.Valid → c.Valid →
      start.key ≤ c.key → c.key ≤ stop.key → stop.key + 1 - start.key ≤ n →
      c ∈ dateRangeAux n start stop := by
  intro n
  induction n with
  | zero => intro start stop c _ _ h1 h2 h3; omega
  | succ n ih =>
    intro start stop c hs hc h1 h2 h3
    rw [dateRangeAux, if_pos (by omega : start.key ≤ stop.key)]
    rcases Nat.eq_or_lt_of_le h1 with heq | hlt
    · cases key_inj hs hc heq
      exact List.mem_cons_self _ _
    · refine List.mem_cons_of_mem _ ?_
      have hkn := key_lt_nextDate hs
      exact ih (nextDate start) stop c (nextDate_valid hs) hc
        (nextDate_key_min hs hc hlt) h2 (by omega)

theorem mem_dateRange_iff {start stop c : Date} (hs : start.Valid) (hc : c.Valid) :
    c ∈ dateRange start stop ↔ (start.key ≤ c.key ∧ c.key ≤ stop.key) := by
  constructor
  · intro h
    have := mem_dateRangeAux_bounds _ _ _ _ hs h
    exact ⟨this.1, this.2.1⟩
  · rintro ⟨h1, h2⟩
    exact mem_dateRangeAux_of_between _ _ _ _ hs hc h1 h2 (by omega)

theorem dateRange_valid {start stop : Date} (hs : start.Valid) :
    ∀ x ∈ dateRange start stop, x.Valid :=
  fun _x hx => (mem_dateRangeAux_bounds _ _ _ _ hs hx).2.2

theorem dateRange_keys_nodup {start stop : Date} (hs : start.Valid) :
    ((dateRange start stop).map Date.key).Nodup := by
  have hp := pairwise_key_dateRangeAux (stop.key + 1 - start.key) start stop hs
  have : ((dateRange start stop).map Date.key).Pairwise (· < ·) :=
    List.pairwise_map.mpr hp
  exact this.imp Nat.ne_of_lt

/-! ## Lemmas about the order-date minimum and maximum -/

theorem minByKey_mem (x : Date) (xs : List Date) : minByKey x xs ∈ x :: xs := by
  induction xs generalizing x with
  | nil => simp [minByKey]
  | cons y ys ih =>
    simp only [minByKey, List.foldl_cons] at ih ⊢
    rcases List.mem_cons.mp (ih (if y.key < x.key then y else x)) with h | h
    · rw [h]
      split
      · exact List.mem_cons_of_mem _ (List.mem_cons_self _ _)
      · exact List.mem_cons_self _ _
    · exact List.mem_cons_of_mem _ (List.mem_cons_of_mem _ h)

theorem minByKey_key_le (x : Date) (xs : List Date) :
    ∀ y ∈ x :: xs, (minByKey x xs).key ≤ y.key := by
  induction xs generalizing x with
  | nil =>
    intro y hy
    rcases List.mem_cons.mp hy with rfl | h
    · simp [minByKey]
    · simp at h
  | cons z zs ih =>
    intro y hy
    simp only [minByKey, List.foldl_cons] at ih ⊢
    have hseed : (zs.foldl (fun a b => if b.key < a.key then b else a)
        (if z.key < x.key then z else x)).key ≤ (if z.key < x.key then z else x).key :=
      ih (if z.key < x.key then z else x) _ (List.mem_cons_self _ _)
    rcases List.mem_cons.mp hy with rfl | hy2
    · by_cases hzx : z.key < y.key
      · rw [if_pos hzx] at hseed ⊢
        omega
      · rw [if_neg hzx] at hseed ⊢
        omega
    · rcases List.mem_cons.mp hy2 with rfl | hy3
      · by_cases hzx : y.key < x.key
        · rw [if_pos hzx] at hseed ⊢
          omega
        · rw [if_neg hzx] at hseed ⊢
          omega
      · exact ih (if z.key < x.key then z else x) y (List.mem_cons_of_mem _ hy3)

theorem maxByKey_mem (x : Date) (xs : List Date) : maxByKey x xs ∈ x :: xs := by
  induction xs generalizing x with
  | nil => simp [maxByKey]
  | cons y ys ih =>
    simp only [maxByKey, List.foldl_cons] at ih ⊢
    rcases List.mem_cons.mp (ih (if x.key < y.key then y else x)) with h | h
    · rw [h]
      split
      · exact List.mem_cons_of_mem _ (List.mem_cons_self _ _)
      · exact List.mem_cons_self _ _
    · exact List.mem_cons_of_mem _ (List.mem_cons_of_mem _ h)

theorem maxByKey_key_ge (x : Date) (xs : List Date) :
    ∀ y ∈ x :: xs, y.key ≤ (maxByKey x xs).key := by
  induction xs generalizing x with
  | nil =>
    intro y hy
    rcases List.mem_cons.mp hy with rfl | h
    · simp [maxByKey]
    · simp at h
  | cons z zs ih =>
    intro y hy
    simp only [maxByKey, List.foldl_cons] at ih ⊢
    have hseed : (if x.key < z.key then z else x).key ≤
        (zs.foldl (fun a b => if a.key < b.key then b else a)
          (if x.key < z.key then z else x)).key :=
      ih (if x.key < z.key then z else x) _ (List.mem_cons_self _ _)
    rcases List.mem_cons.mp hy with rfl | hy2
    · by_cases hzx : y.key < z.key
      · rw [if_pos hzx] at hseed ⊢
        omega
      · rw [if_neg hzx] at hseed ⊢
        omega
    · rcases List.mem_cons.mp hy2 with rfl | hy3
      · by_cases hzx : x.key < y.key
        · rw [if_pos hzx] at hseed ⊢
          omega
        · rw [if_neg hzx] at hseed ⊢
          omega
      · exact ih (if x.key < z.key then z else x) y (List.mem_cons_of_mem _ hy3)

theorem minDateOpt_spec {ds : List Date} {lo : Date} (h : minDateOpt ds = some lo) :
    lo ∈ ds ∧ ∀ d ∈ ds, lo.key ≤ d.key := by
  cases ds with
  | nil => simp [minDateOpt] at h
  | cons x xs =>
    simp only [minDateOpt, Option.some.injEq] at h
    subst h
    exact ⟨minByKey_mem x xs, minByKey_key_le x xs⟩

theorem maxDateOpt_spec {ds : List Date} {hi : Date} (h : maxDateOpt ds = some hi) :
    hi ∈ ds ∧ ∀ d ∈ ds, d.key ≤ hi.key := by
  cases ds with
  | nil => simp [maxDateOpt] at h
  | cons x xs =>
    simp only [maxDateOpt, Option.some.injEq] at h
    subst h
    exact ⟨maxByKey_mem x xs, maxByKey_key_ge x xs⟩

/-! ## Claim C1 -/

/-- Claim C1: the pipeline output is a deterministic function of the
input table alone.  The schema script empties the store before
anything is loaded, so running the pipeline against any two prior
store states — in particular running it twice, the second time against
the store the first run produced — yields identical contents in all
six output tables. -/
theorem pipeline_deterministic (df : RawDF) (s₁ s₂ : Store) :
    runPipeline s₁ df = runPipeline s₂ df := rfl

/-! ## Claim C6 -/

/-- Claim C6: `order_value_segment` is classified against the single
batch-wide 75th-percentile sales threshold computed once per run: a
transformed row is "High Value" iff its sales strictly exceed that
threshold, and a row whose sales equal the threshold is
"Standard Value". -/
theorem order_value_segment_spec (df : RawDF) (r : TransRow)
    (hr : r ∈ (transform_data df).rows) :
    (r.order_value_segment = "High Value" ↔ sales_threshold df < r.sales) ∧
    (r.sales = sales_threshold df → r.order_value_segment = "Standard Value") := by
  obtain ⟨raw, hraw, rfl⟩ := List.mem_map.mp hr
  have hHV : strTake255 "High Value" = "High Value" := by decide
  have hSV : strTake255 "Standard Value" = "Standard Value" := by decide
  constructor
  · simp only [transformRow]
    by_cases h : sales_threshold df < raw.sales
    · rw [if_pos h, hHV]
      simp [h]
    · rw [if_neg h, hSV]
      exact iff_of_false (by decide) h
  · intro hEq
    simp only [transformRow] at hEq ⊢
    have hne : ¬ sales_threshold df < raw.sales := by
      rw [hEq]
      exact lt_irrefl _
    rw [if_neg hne, hSV]

/-- Witness for C6: the first sample row is classified and satisfies
the threshold characterization. -/
theorem order_value_segment_spec_witness :
    (transformRow (sales_threshold sampleRawDF) sampleRawRow ∈ (transform_data sampleRawDF).rows) ∧
    (((transformRow (sales_threshold sampleRawDF) sampleRawRow).order_value_segment = "High Value" ↔
        sales_threshold sampleRawDF < (transformRow (sales_threshold sampleRawDF) sampleRawRow).sales) ∧
     ((transformRow (sales_threshold sampleRawDF) sampleRawRow).sales = sales_threshold sampleRawDF →
        (transformRow (sales_threshold sampleRawDF) sampleRawRow).order_value_segment = "Standard Value")) :=
  ⟨List.mem_map_of_mem _ (List.mem_cons_self _ _),
   order_value_segment_spec sampleRawDF _ (List.mem_map_of_mem _ (List.mem_cons_self _ _))⟩

/-! ## Claim C7 -/

/-- Claim C7: `categorize_discount` maps 0 to "No Discount", any
discount strictly between 0 and 0.2 to "Low", and any discount of at
least 0.2 to "High"; in particular the boundary value 0.2 itself maps
to "High" (`mkRat 2 10` is the exact decimal 0.2). -/
theorem discount_category_spec :
    categorize_discount 0 = "No Discount" ∧
    (∀ d : Rat, 0 < d → d < mkRat 2 10 → categorize_discount d = "Low") ∧
    (∀ d : Rat, mkRat 2 10 ≤ d → categorize_discount d = "High") ∧
    categorize_discount (mkRat 2 10) = "High" := by
  refine ⟨by decide, ?_, ?_, by decide⟩
  · intro d h1 h2
    have hne : ¬ d = 0 := by
      intro h
      rw [h] at h1
      exact lt_irrefl 0 h1
    unfold categorize_discount
    rw [if_neg hne, if_pos h2]
  · intro d h1
    by_cases h0 : d = 0
    · exfalso
      rw [h0] at h1
      revert h1
      decide
    · unfold categorize_discount
      rw [if_neg h0, if_neg (not_lt.mpr h1)]

/-- Witness for C7 at the concrete discounts 0.1 and 0.2. -/
theorem discount_category_spec_witness :
    ((0 : Rat) < mkRat 1 10 ∧ mkRat 1 10 < mkRat 2 10 ∧ mkRat 2 10 ≤ mkRat 2 10) ∧
    categorize_discount (mkRat 1 10) = "Low" ∧
    categorize_discount (mkRat 2 10) = "High" :=
  ⟨⟨by decide, by decide, by decide⟩,
   discount_category_spec.2.1 (mkRat 1 10) (by decide) (by decide),
   discount_category_spec.2.2.1 (mkRat 2 10) (by decide)⟩

/-! ## Claim C8 -/

/-- Claim C8: `insert_data` writes consecutive batches of at most 1000
rows, committing each batch right after it is inserted; when a batch
fails the loop aborts at once (no later batch is attempted) and
exactly the previously committed batches remain in the table, so a
failed load leaves the table partially populated. -/
theorem insert_data_spec {α : Type} (ok : List α → Bool) (rows : List α) :
    (∀ c ∈ chunksOf 1000 rows, c.length ≤ 1000) ∧
    (chunksOf 1000 rows).flatten = rows ∧
    ((∀ c ∈ chunksOf 1000 rows, ok c = true) → insert_data ok rows 1000 = (rows, true)) ∧
    (∀ (pre : List (List α)) (bad : List α) (post : List (List α)),
        chunksOf 1000 rows = pre ++ bad :: post → (∀ c ∈ pre, ok c = true) → ok bad = false →
        insert_data ok rows 1000 = (pre.flatten, false)) := by
  have hflat : (chunksOf 1000 rows).flatten = rows :=
    chunksOfAux_flatten 999 rows.length rows (Nat.le_refl _)
  refine ⟨?_, hflat, ?_, ?_⟩
  · intro c hc
    have := chunksOfAux_length_le 999 rows.length rows c hc
    omega
  · intro hall
    unfold insert_data
    rw [runBatches_all_ok ok (chunksOf 1000 rows) hall]
    simpa using hflat
  · intro pre bad post hsplit hpre hbad
    unfold insert_data
    rw [hsplit, runBatches_fail ok pre bad post hpre hbad]

/-- Witness for C8: a three-row load in one batch, once with a store
accepting every batch and once with a store rejecting the first. -/
theorem insert_data_spec_witness :
    (chunksOf 1000 [1, 2, 3] = ([] : List (List Nat)) ++ [1, 2, 3] :: [] ∧
      (∀ c ∈ ([] : List (List Nat)), (fun _ => false) c = true) ∧
      (fun _ : List Nat => false) [1, 2, 3] = false) ∧
    insert_data (fun _ => false) [1, 2, 3] 1000 = (List.flatten ([] : List (List Nat)), false) ∧
    insert_data (fun _ => true) [1, 2, 3] 1000 = ([1, 2, 3], true) :=
  ⟨⟨by decide, by decide, rfl⟩,
   (insert_data_spec (fun _ => false) [1, 2, 3]).2.2.2 [] [1, 2, 3] [] (by decide) (by decide) rfl,
   (insert_data_spec (fun _ => true) [1, 2, 3]).2.2.1 (by decide)⟩

/-! ## Claim C9 -/

/-- Claim C9: after `transform_data` no object-dtype column holds an
absent value: the truncation step's `astype(str)` turns a missing
entry into the literal string `"nan"`, and `insert_data`'s
NaN-to-None conversion passes such a cell through as the string
`"nan"` rather than turning it into SQL NULL. -/
theorem object_columns_not_null (df : RawDF) (r : RawRow) (hr : r ∈ df.rows) :
    ∃ r' ∈ (transform_data df).rows,
      ((r.ship_mode = none → r'.ship_mode = "nan") ∧
       (r.order_id = none → r'.order_id = "nan") ∧
       (r.customer_name = none → r'.customer_name = "nan") ∧
       (r.segment = none → r'.segment = "nan") ∧
       (r.product_name = none → r'.product_name = "nan") ∧
       (r.category = none → r'.category = "nan") ∧
       (r.sub_category = none → r'.sub_category = "nan") ∧
       (r.city = none → r'.city = "nan") ∧
       (r.state = none → r'.state = "nan") ∧
       (r.country = none → r'.country = "nan") ∧
       (r.region = none → r'.region = "nan") ∧
       (r.market = none → r'.market = "nan") ∧
       (r.postal_code = none → r'.postal_code = "nan")) ∧
      ∀ c ∈ objCells r', toSqlParam c ≠ none := by
  refine ⟨transformRow (sales_threshold df) r, List.mem_map_of_mem _ hr, ?_, ?_⟩
  · refine ⟨?_, ?_, ?_, ?_, ?_, ?_, ?_, ?_, ?_, ?_, ?_, ?_, ?_⟩ <;>
      (intro h; simp only [transformRow, h]; decide)
  · intro c hc
    simp only [objCells, List.mem_cons, List.not_mem_nil, or_false] at hc
    rcases hc with rfl | rfl | rfl | rfl | rfl | rfl | rfl | rfl | rfl | rfl | rfl | rfl | rfl |
      rfl | rfl | rfl | rfl <;> simp [toSqlParam]

/-- Witness for C9: the sample raw row has a missing ship mode and it
is loaded as the string "nan". -/
theorem object_columns_not_null_witness :
    sampleRawRow ∈ sampleRawDF.rows ∧ sampleRawRow.ship_mode = none ∧
    ∃ r' ∈ (transform_data sampleRawDF).rows,
      r'.ship_mode = "nan" ∧ ∀ c ∈ objCells r', toSqlParam c ≠ none := by
  refine ⟨List.mem_cons_self _ _, rfl, ?_⟩
  obtain ⟨r', hmem, himp, hcells⟩ :=
    object_columns_not_null sampleRawDF sampleRawRow (List.mem_cons_self _ _)
  exact ⟨r', hmem, himp.1 rfl, hcells⟩

/-! ## Lemmas about the fact table -/

theorem find?_load_face_sales (df : TransDF) (dimSM : List ShipModeRow) (dimL : List LocRow)
    (k : Int) :
    (load_face_sales df dimSM dimL).find? (fun fr => fr.rowID == k)
      = (df.rows.find? (fun r => r.row_id == k)).map (mkFactRow df.flags dimSM dimL) := by
  unfold load_face_sales
  rw [find?_dedupBy, List.find?_map]
  rfl

theorem rowid_mem_load_face_sales (df : TransDF) (dimSM : List ShipModeRow) (dimL : List LocRow)
    (r : TransRow) (hr : r ∈ df.rows) :
    ∃ fr ∈ load_face_sales df dimSM dimL, fr.rowID = r.row_id := by
  have hfind : (df.rows.find? (fun x => x.row_id == r.row_id)).isSome := by
    rw [List.find?_isSome]
    exact ⟨r, hr, by simp⟩
  obtain ⟨y, hy⟩ := Option.isSome_iff_exists.mp hfind
  have h2 := find?_load_face_sales df dimSM dimL r.row_id
  rw [hy] at h2
  refine ⟨mkFactRow df.flags dimSM dimL y, List.mem_of_find?_eq_some h2, ?_⟩
  have hp := List.find?_some hy
  simp only [beq_iff_eq] at hp
  simpa [mkFactRow] using hp

theorem mem_load_face_sales (df : TransDF) (dimSM : List ShipModeRow) (dimL : List LocRow)
    (fr : FactRow) (h : fr ∈ load_face_sales df dimSM dimL) :
    ∃ r ∈ df.rows, fr = mkFactRow df.flags dimSM dimL r := by
  have hsub := dedupBy_subset FactRow.rowID _ fr h
  obtain ⟨r, hr, heq⟩ := List.mem_map.mp hsub
  exact ⟨r, hr, heq.symm⟩

/-! ## Lemmas about the surrogate-keyed dimension tables -/

theorem dimShipMode_map_mode (df : TransDF) :
    (dimShipMode df).map ShipModeRow.shipMode = dedupBy id (df.rows.map TransRow.ship_mode) := by
  unfold dimShipMode
  rw [List.map_map]
  have h : (ShipModeRow.shipMode ∘ fun p => ShipModeRow.mk (p.1 + 1) p.2)
      = fun p : Nat × String => p.2 := rfl
  rw [h]
  exact enumFrom_map_snd _ 0

theorem dimShipMode_map_id (df : TransDF) :
    (dimShipMode df).map ShipModeRow.shipModeID
      = List.range' 1 (dedupBy id (df.rows.map TransRow.ship_mode)).length := by
  unfold dimShipMode
  rw [List.map_map]
  have h : (ShipModeRow.shipModeID ∘ fun p => ShipModeRow.mk (p.1 + 1) p.2)
      = fun p : Nat × String => p.1 + 1 := rfl
  rw [h]
  have h2 := enumFrom_map_fst_add_one (dedupBy id (df.rows.map TransRow.ship_mode)) 0
  simpa using h2

theorem dimLocation_map_key (df : TransDF) :
    (dimLocation df).map LocRow.key = dedupBy id (df.rows.map (locKey df.flags)) := by
  unfold dimLocation
  rw [List.map_map]
  have h : (LocRow.key ∘ fun p => LocRow.mk (p.1 + 1) p.2)
      = fun p : Nat × List String => p.2 := rfl
  rw [h]
  exact enumFrom_map_snd _ 0

theorem dimLocation_map_id (df : TransDF) :
    (dimLocation df).map LocRow.locationID
      = List.range' 1 (dedupBy id (df.rows.map (locKey df.flags))).length := by
  unfold dimLocation
  rw [List.map_map]
  have h : (LocRow.locationID ∘ fun p => LocRow.mk (p.1 + 1) p.2)
      = fun p : Nat × List String => p.1 + 1 := rfl
  rw [h]
  have h2 := enumFrom_map_fst_add_one (dedupBy id (df.rows.map (locKey df.flags))) 0
  simpa using h2

/-! ## Claim C2 -/

/-- Claim C2: `Dim_ShipMode`'s surrogate keys are exactly 1..N where N
is the number of distinct ship modes in the batch, and `Dim_Location`'s
are exactly 1..M for the M distinct composite location tuples; in both
tables the i-th row carries surrogate i and the i-th distinct natural
key in first-encountered input order (the key lists are duplicate-free,
contain exactly the values occurring in the batch, and are ordered by
first occurrence), with no gaps and no repeats. -/
theorem surrogate_keys_spec (df : TransDF) :
    ((dimShipMode df).map ShipModeRow.shipModeID
        = List.range' 1 ((df.rows.map TransRow.ship_mode).toFinset.card)) ∧
    ((dimShipMode df).map ShipModeRow.shipMode).Nodup ∧
    (∀ v : String,
        v ∈ (dimShipMode df).map ShipModeRow.shipMode ↔ v ∈ df.rows.map TransRow.ship_mode) ∧
    ((dimShipMode df).map ShipModeRow.shipMode).Pairwise
        (fun a b => firstIdx (df.rows.map TransRow.ship_mode) a
          < firstIdx (df.rows.map TransRow.ship_mode) b) ∧
    ((dimLocation df).map LocRow.locationID
        = List.range' 1 ((df.rows.map (locKey df.flags)).toFinset.card)) ∧
    ((dimLocation df).map LocRow.key).Nodup ∧
    (∀ v : List String,
        v ∈ (dimLocation df).map LocRow.key ↔ v ∈ df.rows.map (locKey df.flags)) ∧
    ((dimLocation df).map LocRow.key).Pairwise
        (fun a b => firstIdx (df.rows.map (locKey df.flags)) a
          < firstIdx (df.rows.map (locKey df.flags)) b) := by
  refine ⟨?_, ?_, ?_, ?_, ?_, ?_, ?_, ?_⟩
  · rw [dimShipMode_map_id, dedupBy_id_length]
  · rw [dimShipMode_map_mode]
    exact nodup_dedupBy_id _
  · intro v
    rw [dimShipMode_map_mode]
    exact mem_dedupBy_id _ v
  · rw [dimShipMode_map_mode]
    exact pairwise_idxOf_dedupBy _
  · rw [dimLocation_map_id, dedupBy_id_length]
  · rw [dimLocation_map_key]
    exact nodup_dedupBy_id _
  · intro v
    rw [dimLocation_map_key]
    exact mem_dedupBy_id _ v
  · rw [dimLocation_map_key]
    exact pairwise_idxOf_dedupBy _

/-! ## Claim C4 -/

/-- Claim C4: after fact construction the RowID values are pairwise
distinct; for every key the retained fact row is built from the
first-occurring input row with that RowID (so each later duplicate is
dropped), and every input RowID is still present. -/
theorem fact_rowid_unique (df : TransDF) (dimSM : List ShipModeRow) (dimL : List LocRow) :
    ((load_face_sales df dimSM dimL).map FactRow.rowID).Nodup ∧
    (∀ k : Int, (load_face_sales df dimSM dimL).find? (fun fr => fr.rowID == k)
        = (df.rows.find? (fun r => r.row_id == k)).map (mkFactRow df.flags dimSM dimL)) ∧
    (∀ r ∈ df.rows, ∃ fr ∈ load_face_sales df dimSM dimL, fr.rowID = r.row_id) :=
  ⟨nodup_map_key_dedupBy _ _,
   find?_load_face_sales df dimSM dimL,
   rowid_mem_load_face_sales df dimSM dimL⟩

/-- Witness for C4: the sample frame repeats RowID 1 in its first and
third rows and both sample RowIDs survive into the fact table. -/
theorem fact_rowid_unique_witness :
    (sampleTransRow ∈ sampleTrans2.rows) ∧
    (∃ fr ∈ load_face_sales sampleTrans2 [] [], fr.rowID = sampleTransRow.row_id) :=
  ⟨List.mem_cons_self _ _,
   (fact_rowid_unique sampleTrans2 [] []).2.2 sampleTransRow (List.mem_cons_self _ _)⟩

/-! ## Claim C5 -/

/-- Claim C5: a fact row whose ship-mode value or composite location
tuple matches no row of the corresponding dimension keeps a null
(absent) surrogate FK and is still part of the constructed fact table;
no row is dropped for an unresolved FK — every input RowID reaches the
fact output. -/
theorem fact_fk_null_tolerated (df : TransDF) (dimSM : List ShipModeRow) (dimL : List LocRow) :
    (∀ fr ∈ load_face_sales df dimSM dimL,
        ∃ r ∈ df.rows, fr = mkFactRow df.flags dimSM dimL r ∧
          ((∀ d ∈ dimSM, d.shipMode ≠ r.ship_mode) → fr.shipModeID = none) ∧
          ((∀ d ∈ dimL, d.key ≠ locKey df.flags r) → fr.locationID = none)) ∧
    (∀ r ∈ df.rows, ∃ fr ∈ load_face_sales df dimSM dimL, fr.rowID = r.row_id) := by
  constructor
  · intro fr hfr
    obtain ⟨r, hr, rfl⟩ := mem_load_face_sales df dimSM dimL fr hfr
    refine ⟨r, hr, rfl, ?_, ?_⟩
    · intro hno
      show resolveShipMode dimSM r.ship_mode = none
      unfold resolveShipMode
      have hfind : (dimSM.find? fun d => d.shipMode == r.ship_mode) = none :=
        List.find?_eq_none.mpr (fun d hd => by simpa using hno d hd)
      rw [hfind]
      rfl
    · intro hno
      show resolveLocation dimL (locKey df.flags r) = none
      unfold resolveLocation
      have hfind : (dimL.find? fun d => d.key == locKey df.flags r) = none :=
        List.find?_eq_none.mpr (fun d hd => by simpa using hno d hd)
      rw [hfind]
      rfl
  · exact rowid_mem_load_face_sales df dimSM dimL

/-- Witness for C5: against empty dimension tables the sample fact row
is retained with both surrogate FKs null. -/
theorem fact_fk_null_tolerated_witness :
    (mkFactRow sampleTrans2.flags [] [] sampleTransRow ∈ load_face_sales sampleTrans2 [] []) ∧
    (mkFactRow sampleTrans2.flags [] [] sampleTransRow).shipModeID = none ∧
    (mkFactRow sampleTrans2.flags [] [] sampleTransRow).locationID = none := by
  have hmem : mkFactRow sampleTrans2.flags [] [] sampleTransRow ∈ load_face_sales sampleTrans2 [] [] := by
    exact List.Mem.head _
  obtain ⟨r, hr, heq, h1, h2⟩ := (fact_fk_null_tolerated sampleTrans2 [] []).1 _ hmem
  refine ⟨hmem, ?_, ?_⟩
  · rw [heq]
    exact h1 (fun d hd => absurd hd (List.not_mem_nil d))
  · rw [heq]
    exact h2 (fun d hd => absurd hd (List.not_mem_nil d))

/-! ## Claim C3 -/

/-- Claim C3: the constructed `Dim_Date` is exactly the sentinel row
(DateKey 0) plus one row per calendar day in the inclusive range from
the smallest to the largest order date: a generated calendar row for a
valid date is in the table iff the date lies in that range, and the
key list has no duplicates.  The DateKey values, sentinel included,
are pairwise distinct, so the uniqueness assertion succeeds and the
table is produced (`dim_date_table` returns `none` — aborting before
any row is loaded — whenever the assertion would fail). -/
theorem dim_date_spec (df : TransDF)
    (hne : presentOrderDates df ≠ [])
    (hval : ∀ d ∈ presentOrderDates df, d.Valid) :
    ∃ lo hi, minDateOpt (presentOrderDates df) = some lo ∧
      maxDateOpt (presentOrderDates df) = some hi ∧
      dim_date_table df = some (unknownDateRow :: (dateRange lo hi).map mkDateRow) ∧
      ((unknownDateRow :: (dateRange lo hi).map mkDateRow).map DateRow.dateKey).Nodup ∧
      (∀ d : Date, d.Valid →
        (mkDateRow d ∈ unknownDateRow :: (dateRange lo hi).map mkDateRow ↔
          lo.key ≤ d.key ∧ d.key ≤ hi.key)) := by
  obtain ⟨x, xs, heq⟩ : ∃ x xs, presentOrderDates df = x :: xs := by
    cases h : presentOrderDates df with
    | nil => exact absurd h hne
    | cons a as => exact ⟨a, as, rfl⟩
  have hlo : minDateOpt (presentOrderDates df) = some (minByKey x xs) := by
    rw [heq]
    rfl
  have hhi : maxDateOpt (presentOrderDates df) = some (maxByKey x xs) := by
    rw [heq]
    rfl
  have hvlo : (minByKey x xs).Valid := hval _ ((minDateOpt_spec hlo).1)
  have hnod : ((unknownDateRow ::
      (dateRange (minByKey x xs) (maxByKey x xs)).map mkDateRow).map DateRow.dateKey).Nodup := by
    simp only [List.map_cons]
    rw [List.nodup_cons]
    constructor
    · intro hmem
      rw [List.map_map] at hmem
      obtain ⟨e, he, heq0⟩ := List.mem_map.mp hmem
      have hev := dateRange_valid hvlo e he
      have h0 : (e.key : Int) = unknownDateRow.dateKey := heq0
      obtain ⟨he1, he2, _, he4, _⟩ := hev
      have hk : 10101 ≤ e.key := by
        simp only [Date.key]
        omega
      simp only [unknownDateRow] at h0
      omega
    · rw [List.map_map]
      have hnd := @dateRange_keys_nodup (minByKey x xs) (maxByKey x xs) hvlo
      have hcomp : (DateRow.dateKey ∘ mkDateRow) = (fun n : Nat => (n : Int)) ∘ Date.key := rfl
      rw [hcomp, ← List.map_map]
      exact List.Nodup.map Nat.cast_injective hnd
  refine ⟨minByKey x xs, maxByKey x xs, hlo, hhi, ?_, hnod, ?_⟩
  · simp only [dim_date_table, hlo, hhi]
    rw [if_pos hnod]
  · intro d hd
    constructor
    · intro hmem
      rcases List.mem_cons.mp hmem with heq0 | hmem2
      · exfalso
        have hdate : (mkDateRow d).date = unknownDateRow.date := by rw [heq0]
        simp [mkDateRow, unknownDateRow] at hdate
      · obtain ⟨e, he, heqe⟩ := List.mem_map.mp hmem2
        have hed : e = d := by
          have hdate : (mkDateRow e).date = (mkDateRow d).date := by rw [heqe]
          simpa [mkDateRow] using hdate
        subst hed
        exact (mem_dateRange_iff hvlo hd).mp he
    · intro hbounds
      exact List.mem_cons_of_mem _
        (List.mem_map_of_mem _ ((mem_dateRange_iff hvlo hd).mpr hbounds))

/-- Witness for C3 on the directly-built sample frame (order dates
2024-01-01 and 2024-01-02). -/
theorem dim_date_spec_witness :
    (presentOrderDates sampleTrans2 ≠ [] ∧ ∀ d ∈ presentOrderDates sampleTrans2, d.Valid) ∧
    (∃ lo hi, minDateOpt (presentOrderDates sampleTrans2) = some lo ∧
      maxDateOpt (presentOrderDates sampleTrans2) = some hi ∧
      dim_date_table sampleTrans2 = some (unknownDateRow :: (dateRange lo hi).map mkDateRow) ∧
      ((unknownDateRow :: (dateRange lo hi).map mkDateRow).map DateRow.dateKey).Nodup ∧
      (∀ d : Date, d.Valid →
        (mkDateRow d ∈ unknownDateRow :: (dateRange lo hi).map mkDateRow ↔
          lo.key ≤ d.key ∧ d.key ≤ hi.key))) :=
  ⟨⟨by decide, by decide⟩, dim_date_spec sampleTrans2 (by decide) (by decide)⟩

/-! ## Claim C10 -/

/-- Claim C10: every retained fact row's DateKey occurs in the
constructed `Dim_Date`: a row with an absent order date got
`date_key = 0`, which matches the sentinel row, and every present
order date lies in the inclusive [min, max] range the calendar rows
are generated from, so its YYYYMMDD key is present too. -/
theorem fact_datekey_resolves (df0 : RawDF) (table : List DateRow)
    (hval : ∀ d ∈ presentOrderDates (transform_data df0), d.Valid)
    (htab : dim_date_table (transform_data df0) = some table) :
    ∀ fr ∈ load_face_sales (transform_data df0) (dimShipMode (transform_data df0))
        (dimLocation (transform_data df0)),
      fr.dateKey ∈ table.map DateRow.dateKey := by
  intro fr hfr
  cases hp : presentOrderDates (transform_data df0) with
  | nil =>
    exfalso
    simp [dim_date_table, hp, minDateOpt, maxDateOpt] at htab
  | cons x xs =>
    have hlo : minDateOpt (presentOrderDates (transform_data df0)) = some (minByKey x xs) := by
      rw [hp]
      rfl
    have hhi : maxDateOpt (presentOrderDates (transform_data df0)) = some (maxByKey x xs) := by
      rw [hp]
      rfl
    have hvlo : (minByKey x xs).Valid := hval _ ((minDateOpt_spec hlo).1)
    simp only [dim_date_table, hlo, hhi] at htab
    split at htab
    · rw [Option.some.injEq] at htab
      subst htab
      obtain ⟨r', hr', rfl⟩ := mem_load_face_sales _ _ _ fr hfr
      obtain ⟨raw, hraw, rfl⟩ := List.mem_map.mp hr'
      have hkey : (mkFactRow (transform_data df0).flags (dimShipMode (transform_data df0))
          (dimLocation (transform_data df0)) (transformRow (sales_threshold df0) raw)).dateKey
            = dateKeyOf raw.order_date := rfl
      rw [hkey]
      cases ho : raw.order_date with
      | none =>
        simp only [dateKeyOf, List.map_cons]
        have h0 : unknownDateRow.dateKey = 0 := rfl
        rw [h0]
        exact List.mem_cons_self _ _
      | some d =>
        have hmemd : d ∈ presentOrderDates (transform_data df0) :=
          List.mem_filterMap.mpr ⟨transformRow (sales_threshold df0) raw,
            List.mem_map_of_mem _ hraw, ho⟩
        have hd : d.Valid := hval d hmemd
        have hrange : d ∈ dateRange (minByKey x xs) (maxByKey x xs) :=
          (mem_dateRange_iff hvlo hd).mpr
            ⟨(minDateOpt_spec hlo).2 d hmemd, (maxDateOpt_spec hhi).2 d hmemd⟩
        have : (mkDateRow d).dateKey ∈ (unknownDateRow ::
            (dateRange (minByKey x xs) (maxByKey x xs)).map mkDateRow).map DateRow.dateKey :=
          List.mem_map_of_mem _ (List.mem_cons_of_mem _ (List.mem_map_of_mem _ hrange))
        simpa [dateKeyOf, mkDateRow] using this
    · exact absurd htab (by simp)

/-- Witness for C10: the sample pipeline's first fact row has DateKey
20240101, which resolves in the sample date dimension. -/
theorem fact_datekey_resolves_witness :
    ((∀ d ∈ presentOrderDates (transform_data sampleRawDF), d.Valid) ∧
      dim_date_table (transform_data sampleRawDF) = some sampleDimDate) ∧
    (mkFactRow (transform_data sampleRawDF).flags (dimShipMode (transform_data sampleRawDF))
        (dimLocation (transform_data sampleRawDF))
        (transformRow (sales_threshold sampleRawDF) sampleRawRow)).dateKey
      ∈ sampleDimDate.map DateRow.dateKey :=
  ⟨⟨by decide, by decide⟩,
   fact_datekey_resolves sampleRawDF sampleDimDate (by decide) (by decide) _ (List.Mem.head _)⟩

end Superstore
